import Mathlib

/-!
Verification development for the audiobook composition pipeline:
shallow embedding of `subtitle_composer.py`, `audiobook_merger.py` and the
filename derivation of `tts_gui.py`, together with theorems about the
properties the pipeline is expected to satisfy.

Python strings are modelled as `List Char`; Python `int` as `Int`/`Nat`
(Python integers are unbounded); Python `float` durations as exact
rationals `ℚ`; the file system as a finite partial map given by a
function `String → Option α`.
-/

set_option maxRecDepth 4000

namespace VietTTS

/-! ### Basic Python string primitives -/

/-- Python whitespace test (`\s`, `str.strip()` on ASCII): space, tab,
newline, carriage return, vertical tab, form feed. -/
def pyIsSpace (c : Char) : Bool :=
  c = ' ' || c = '\t' || c = '\n' || c = '\r' || c = '\x0b' || c = '\x0c'

/-- Python `str.strip()`: drop leading and trailing whitespace. -/
def pyStrip (l : List Char) : List Char :=
  ((l.dropWhile pyIsSpace).reverse.dropWhile pyIsSpace).reverse

/-- The decimal digit character for `n < 10`. -/
def digitChar (n : Nat) : Char := Char.ofNat (48 + n)

/-- Decimal digits of a positive number, least significant first; the
first argument is recursion fuel (any fuel `≥ n` is exact, see
`natDigitsRevFuel_eq_of_le`). -/
def natDigitsRevFuel : Nat → Nat → List Char
  | 0, _ => []
  | _ + 1, 0 => []
  | fuel + 1, n + 1 => digitChar ((n + 1) % 10) :: natDigitsRevFuel fuel ((n + 1) / 10)

/-- Decimal digits of a positive number, least significant first. -/
def natDigitsRev (n : Nat) : List Char :=
  natDigitsRevFuel n n

/-- Decimal representation of a natural number, as `str(n)` in Python. -/
def natRepr (n : Nat) : List Char :=
  if n = 0 then ['0'] else (natDigitsRev n).reverse

/-- Zero padding on the left to width `w` (Python `{:0wd}` for `n ≥ 0`). -/
def zfill (w : Nat) (l : List Char) : List Char :=
  List.replicate (w - l.length) '0' ++ l

/-- Python `f"{i:0wd}"`: zero padding to total width `w`, the sign
occupying one column when `i < 0`. -/
def intPad (w : Nat) (i : Int) : List Char :=
  if i < 0 then '-' :: zfill (w - 1) (natRepr i.natAbs)
  else zfill w (natRepr i.toNat)

/-- Numeric value of a list of decimal digit characters, as `int(s)`
reads them (left fold, so leading zeros are harmless). -/
def digitsVal (l : List Char) : Nat :=
  l.foldl (fun a c => a * 10 + (c.toNat - 48)) 0

/-! ### `SubtitleComposer._add_offset_to_timestamp` -/

/-- The anchored match of `re.match(r'(\d+):(\d+):(\d+)[,\.](\d+)', ts)`
in `_add_offset_to_timestamp`: four `int()`-converted digit groups, any
trailing characters ignored.  `\d+` is greedy, and no separator is a
digit, so taking the maximal digit run in each group is exact. -/
def parseTimestamp (l : List Char) : Option (Nat × Nat × Nat × Nat) :=
  let d1 := l.takeWhile Char.isDigit
  if d1.isEmpty then none else
  match l.dropWhile Char.isDigit with
  | [] => none
  | c1 :: l2 =>
    if c1 = ':' then
      let d2 := l2.takeWhile Char.isDigit
      if d2.isEmpty then none else
      match l2.dropWhile Char.isDigit with
      | [] => none
      | c2 :: l3 =>
        if c2 = ':' then
          let d3 := l3.takeWhile Char.isDigit
          if d3.isEmpty then none else
          match l3.dropWhile Char.isDigit with
          | [] => none
          | c3 :: l4 =>
            if c3 = ',' ∨ c3 = '.' then
              let d4 := l4.takeWhile Char.isDigit
              if d4.isEmpty then none
              else some (digitsVal d1, digitsVal d2, digitsVal d3, digitsVal d4)
            else none
        else none
    else none

/-- `hours*3600000 + minutes*60000 + seconds*1000 + milliseconds`. -/
def toTotalMs (h m s ms : Nat) : Nat :=
  h * 3600000 + m * 60000 + s * 1000 + ms

/-- The reconstruction half of `_add_offset_to_timestamp`: Python `//`
and `%` are floor division and nonnegative remainder, i.e. `Int.ediv`
and `Int.emod` for these positive divisors, and the fields are printed
with `{:02d}`/`{:03d}`. -/
def formatFromTotal (t : Int) : List Char :=
  intPad 2 (t.ediv 3600000)
    ++ ':' :: intPad 2 ((t.emod 3600000).ediv 60000)
    ++ ':' :: intPad 2 (((t.emod 3600000).emod 60000).ediv 1000)
    ++ ',' :: intPad 3 (((t.emod 3600000).emod 60000).emod 1000)

/-- `SubtitleComposer._add_offset_to_timestamp`: returns the input
unchanged when the regex does not match. -/
def addOffsetToTimestamp (ts : List Char) (offsetMs : Int) : List Char :=
  match parseTimestamp ts with
  | none => ts
  | some (h, m, s, ms) => formatFromTotal ((toTotalMs h m s ms : Int) + offsetMs)

/-- String wrapper for `_add_offset_to_timestamp`. -/
def addOffsetToTimestampS (ts : String) (offsetMs : Int) : String :=
  String.mk (addOffsetToTimestamp ts.data offsetMs)

/-! ### `SubtitleComposer._adjust_subtitle_timing` -/

/-- Python `str.split(c)` on a single character: never returns `[]`
(splitting the empty string gives `[""]`). -/
def splitOnChar (sep : Char) : List Char → List (List Char)
  | [] => [[]]
  | a :: rest =>
    match splitOnChar sep rest with
    | [] => [[a]]
    | h :: t => if a = sep then [] :: h :: t else (a :: h) :: t

/-- Index of the last occurrence of `c` in `l`, if any. -/
def lastIdxOf (c : Char) : List Char → Option Nat
  | [] => none
  | a :: rest =>
    match lastIdxOf c rest with
    | some k => some (k + 1)
    | none => if a = c then some 0 else none

/-- One attempted match of the separator regex `\n\s*\n` of
`re.split(r'\n\s*\n', ...)` at the head of `l`: `\s*` is greedy with
backtracking, so the match consumes up to and including the **last**
newline inside the maximal whitespace run that follows the leading
newline.  Returns the remainder after the separator. -/
def sepMatch : List Char → Option (List Char)
  | [] => none
  | c :: rest =>
    if c = '\n' then
      match lastIdxOf '\n' (rest.takeWhile pyIsSpace) with
      | some k => some (rest.drop (k + 1))
      | none => none
    else none

/-- The scanning loop of `re.split(r'\n\s*\n', s)`: left-to-right,
non-overlapping matches; `acc` holds the current block reversed.  The
first argument is recursion fuel: every step consumes at least one
character, so any fuel `> length of the list` never runs out. -/
def splitBlocksGo : Nat → List Char → List Char → List (List Char)
  | 0, _, acc => [acc.reverse]
  | _ + 1, [], acc => [acc.reverse]
  | fuel + 1, c :: rest, acc =>
    match sepMatch (c :: rest) with
    | some rem => acc.reverse :: splitBlocksGo fuel rem []
    | none => splitBlocksGo fuel rest (c :: acc)

/-- `re.split(r'\n\s*\n', s)`. -/
def splitBlocks (l : List Char) : List (List Char) :=
  splitBlocksGo (l.length + 1) l []

/-- Python `'-->' in line`. -/
def containsArrow : List Char → Bool
  | '-' :: '-' :: '>' :: _ => true
  | _ :: rest => containsArrow rest
  | [] => false

/-- The loop of Python `line.split('-->')`: non-overlapping,
left-to-right; `acc` holds the current part reversed. -/
def splitArrowGo : List Char → List Char → List (List Char)
  | '-' :: '-' :: '>' :: rest, acc => acc.reverse :: splitArrowGo rest []
  | c :: rest, acc => splitArrowGo rest (c :: acc)
  | [], acc => [acc.reverse]

/-- Python `line.split('-->')`. -/
def splitArrow (l : List Char) : List (List Char) :=
  splitArrowGo l []

/-- `'\n'.join`-style interleaving with a separator list. -/
def joinSep (sep : List Char) : List (List Char) → List Char
  | [] => []
  | [x] => x
  | x :: y :: rest => x ++ sep ++ joinSep sep (y :: rest)

/-- One iteration of the block loop in `_adjust_subtitle_timing`:
`none` when the block is skipped (`continue`), `some` with the rebuilt
block otherwise.  `idx` is `current_index`. -/
def processBlock (offsetMs : Int) (idx : Nat) (block : List Char) : Option (List Char) :=
  if (pyStrip block).isEmpty then none
  else
    let lines := splitOnChar '\n' (pyStrip block)
    if lines.length < 2 then none
    else
      let timingLine := lines.getD 1 []
      if containsArrow timingLine then
        let parts := splitArrow timingLine
        let startTime := pyStrip (parts.getD 0 [])
        let endTime := pyStrip (parts.getD 1 [])
        let newStart := addOffsetToTimestamp startTime offsetMs
        let newEnd := addOffsetToTimestamp endTime offsetMs
        some (natRepr idx ++ '\n' :: newStart ++ ' ' :: '-' :: '-' :: '>' :: ' ' :: newEnd
          ++ (if lines.length > 2 then '\n' :: joinSep ['\n'] (lines.drop 2) else []))
      else none

/-- The retained-block loop of `_adjust_subtitle_timing`:
`current_index` advances only when a block is kept. -/
def adjustTimingGo (offsetMs : Int) : List (List Char) → Nat → List (List Char)
  | [], _ => []
  | b :: rest, idx =>
    match processBlock offsetMs idx b with
    | none => adjustTimingGo offsetMs rest idx
    | some nb => nb :: adjustTimingGo offsetMs rest (idx + 1)

/-- `SubtitleComposer._adjust_subtitle_timing`. -/
def adjustSubtitleTiming (srtContent : List Char) (offsetMs : Int) (startIndex : Nat) :
    List (List Char) :=
  adjustTimingGo offsetMs (splitBlocks (pyStrip srtContent)) startIndex

/-! ### `SubtitleComposer.calculate_offsets` and `compose_master_subtitle` -/

/-- One queued chapter of `SubtitleComposer` (`add_chapter`): the
`duration_seconds` float is modelled as an exact rational. -/
structure SubChapter where
  subtitle_path : String
  chapter_id : String
  duration : ℚ

/-- The running `cumulative_time` loop of `calculate_offsets`, with the
Python float addition **idealized as exact rational addition**.  The
real program accumulates in IEEE-754 binary64, which can round; the
faithful binary64 model of the same loop is `calcOffsetsGoF` below, and
the two do differ on some inputs (see the Claim C1 counterexample).
This exact version is what the spec's consistency property needs. -/
def calcOffsetsGo (cumulative : ℚ) : List ℚ → List ℚ
  | [] => []
  | d :: ds => cumulative :: calcOffsetsGo (cumulative + d) ds

/-- `SubtitleComposer.calculate_offsets` under exact (infinitely
precise) arithmetic on the durations: the list of per-chapter offsets
(`chapter['offset']`), in chapter order.  See `calcOffsetsGo` for the
idealization and `calculate_offsets_f` for the faithful binary64
counterpart. -/
def calculate_offsets (durations : List ℚ) : List ℚ :=
  calcOffsetsGo 0 durations

/-- Python `int()` on a rational: truncation toward zero. -/
def pyInt (q : ℚ) : Int :=
  if q < 0 then -((-q).floor) else q.floor

/-- The chapter loop of `compose_master_subtitle`: each chapter is
paired with its computed offset; a missing subtitle file is skipped;
`subtitle_index` advances by the number of retained blocks.  The
conversion `offset_ms = int(chapter['offset'] * 1000)` is idealized as
an exact rational multiply before truncation (`pyInt (off * 1000)`);
the faithful binary64 conversion is `offsetMsF` below.  The success
flag and block bookkeeping modelled here do not depend on the numeric
value of the offsets. -/
def composeLoop (fs : String → Option (List Char)) :
    List (SubChapter × ℚ) → Nat → List (List Char)
  | [], _ => []
  | (ch, off) :: rest, idx =>
    match fs ch.subtitle_path with
    | none => composeLoop fs rest idx
    | some content =>
      let blocks := adjustSubtitleTiming content (pyInt (off * 1000)) idx
      blocks ++ composeLoop fs rest (idx + blocks.length)

/-- `SubtitleComposer.compose_master_subtitle`, with file reads and the
final write modelled as succeeding (`fs` maps a path to the content of
an existing file).  Returns the success flag together with the master
content written (`'\n\n'.join(master_content)`). -/
def compose_master_subtitle (fs : String → Option (List Char))
    (chapters : List SubChapter) : Bool × List Char :=
  let offs := calculate_offsets (chapters.map (·.duration))
  let master := composeLoop fs (chapters.zip offs) 1
  (true, joinSep ['\n', '\n'] master)

/-! ### Binary64 model of the offset arithmetic

Python floats are IEEE-754 binary64.  Every finite double is a dyadic
rational `m · 2^e`; an arithmetic result is the exact dyadic value
rounded to 53 significant bits, to nearest with ties to even.  The
model below covers the normal range (no overflow, underflow or NaN),
which contains every value these loops can produce from chapter
durations; within that range it is exactly binary64 arithmetic. -/

/-- A dyadic rational `m · 2^e` (the exact value of a finite double;
the representation is not kept normalized). -/
structure Dyadic where
  m : Int
  e : Int
deriving DecidableEq

/-- The exact rational value of a dyadic. -/
def Dyadic.val (x : Dyadic) : ℚ :=
  if 0 ≤ x.e then (x.m : ℚ) * 2 ^ x.e.toNat else (x.m : ℚ) / 2 ^ (-x.e).toNat

/-- Number of binary digits of `n` (0 for 0); the first argument is
recursion fuel, exact for any fuel `≥ n`. -/
def bitlenFuel : Nat → Nat → Nat
  | 0, _ => 0
  | _ + 1, 0 => 0
  | f + 1, n + 1 => bitlenFuel f ((n + 1) / 2) + 1

/-- Number of binary digits of `n`: `bitlen n = ⌊log₂ n⌋ + 1` for
`n ≥ 1`. -/
def bitlen (n : Nat) : Nat := bitlenFuel n n

/-- Round a dyadic to 53 significant bits, to nearest, ties to even —
binary64 rounding in the normal range.  A value that already fits in
53 bits is returned unchanged; otherwise the significand is truncated
by `shift` bits and the dropped remainder is compared against half an
ulp (`2^(shift-1)`), rounding up on more than half, down on less, and
to the even significand on an exact tie. -/
def roundDouble (x : Dyadic) : Dyadic :=
  let n := x.m.natAbs
  let b := bitlen n
  if b ≤ 53 then x
  else
    let shift := b - 53
    let q := n / 2 ^ shift
    let r := n % 2 ^ shift
    let half := 2 ^ (shift - 1)
    let q2 := if r < half then q
              else if half < r then q + 1
              else if q % 2 = 0 then q else q + 1
    ⟨if x.m < 0 then -(q2 : Int) else (q2 : Int), x.e + (shift : Int)⟩

/-- Exact sum of two dyadics (aligned to the smaller exponent). -/
def dyadicAdd (x y : Dyadic) : Dyadic :=
  if x.e ≤ y.e then ⟨x.m + y.m * 2 ^ (y.e - x.e).toNat, x.e⟩
  else ⟨x.m * 2 ^ (x.e - y.e).toNat + y.m, y.e⟩

/-- Exact product of two dyadics. -/
def dyadicMul (x y : Dyadic) : Dyadic :=
  ⟨x.m * y.m, x.e + y.e⟩

/-- Binary64 addition: exact sum, then rounding. -/
def f64add (x y : Dyadic) : Dyadic := roundDouble (dyadicAdd x y)

/-- Binary64 multiplication: exact product, then rounding. -/
def f64mul (x y : Dyadic) : Dyadic := roundDouble (dyadicMul x y)

/-- The `cumulative_time` loop of `calculate_offsets` on binary64
values — the faithful model of the Python float accumulation. -/
def calcOffsetsGoF (cumulative : Dyadic) : List Dyadic → List Dyadic
  | [] => []
  | d :: ds => cumulative :: calcOffsetsGoF (f64add cumulative d) ds

/-- `SubtitleComposer.calculate_offsets` on binary64 values
(`cumulative_time = 0.0`, then `cumulative_time += duration`). -/
def calculate_offsets_f (durations : List Dyadic) : List Dyadic :=
  calcOffsetsGoF ⟨0, 0⟩ durations

/-- Python `int()` on a finite double: truncation toward zero. -/
def pyIntD (x : Dyadic) : Int :=
  if 0 ≤ x.e then x.m * 2 ^ x.e.toNat
  else if x.m < 0 then -((x.m.natAbs / 2 ^ (-x.e).toNat : Nat) : Int)
  else ((x.m.natAbs / 2 ^ (-x.e).toNat : Nat) : Int)

/-- The double `1000.0` (`int(...)`'s operand `chapter['offset'] * 1000`
promotes the literal `1000` to a float; it is exactly representable). -/
def fLit1000 : Dyadic := ⟨1000, 0⟩

/-- `offset_ms = int(chapter['offset'] * 1000)` of
`compose_master_subtitle`, on binary64 values. -/
def offsetMsF (off : Dyadic) : Int := pyIntD (f64mul off fLit1000)

/-- The binary64 value of the Python literal `0.1`, with its canonical
53-bit significand: `7205759403792794 · 2⁻⁵⁶` (shown to be within half
an ulp of `1/10`, with no tie, in the Claim C1 counterexample). -/
def pyFloat01 : Dyadic := ⟨7205759403792794, -56⟩

/-- The binary64 value of the Python literal `0.7`, with its canonical
53-bit significand: `6305039478318694 · 2⁻⁵³` (shown to be within half
an ulp of `7/10`, with no tie, in the Claim C1 counterexample). -/
def pyFloat07 : Dyadic := ⟨6305039478318694, -53⟩

/-! ### `AudiobookMerger.merge_audiobook` -/

/-- One entry of the `audio_files` argument of `merge_audiobook`
(`{'path': ..., 'title': ..., 'id': ...}`; the GUI passes string ids). -/
structure AudioFileEntry where
  path : String
  title : String
  id : String
deriving DecidableEq

/-- One entry of `chapter_info` as built by `merge_audiobook`. -/
structure ChapterBoundary where
  id : String
  title : String
  start_ms : Nat
  end_ms : Nat
  duration_ms : Nat
deriving DecidableEq

/-- The environment of a merge run: `fs` maps the path of each existing,
decodable MP3 file to its exact decoded duration in milliseconds
(`len(AudioSegment.from_mp3(path))`); `tagWriteOk` records whether the
ID3 tag area can be created and saved by `add_chapter_markers`. -/
structure MergeEnv where
  fs : String → Option Nat
  tagWriteOk : Bool

/-- The concatenation loop of `merge_audiobook` (step 1): skips files
that do not exist, accumulates `chapter_info` and `current_position_ms`.
Returns `(chapter_info, current_position_ms)`. -/
def concatChapters (fs : String → Option Nat) :
    List AudioFileEntry → Nat → List ChapterBoundary × Nat
  | [], pos => ([], pos)
  | f :: rest, pos =>
    match fs f.path with
    | none => concatChapters fs rest pos
    | some d =>
      let r := concatChapters fs rest (pos + d)
      ({ id := f.id, title := f.title, start_ms := pos, end_ms := pos + d,
         duration_ms := d } :: r.1, r.2)

/-- The element id `f"chap{idx:03d}"` of a CHAP frame. -/
def chapElementId (idx : Nat) : List Char :=
  'c' :: 'h' :: 'a' :: 'p' :: zfill 3 (natRepr idx)

/-- One CHAP frame as built by `add_chapter_markers`. -/
structure ChapFrame where
  element_id : List Char
  start_time : Nat
  end_time : Nat
  title : String
deriving DecidableEq

/-- The CTOC (table of contents) frame built by `add_chapter_markers`. -/
structure CTOCFrame where
  element_id : List Char
  topLevel : Bool
  ordered : Bool
  child_element_ids : List (List Char)
deriving DecidableEq

/-- The frame-building loop of `add_chapter_markers`: accumulates
`chapter_element_ids` and the CHAP frames side by side, `idx` counting
from 1.  Returns `(chapter_element_ids, chap_frames)`. -/
def buildChapFrames : List ChapterBoundary → Nat → List (List Char) × List ChapFrame
  | [], _ => ([], [])
  | c :: rest, idx =>
    let eid := chapElementId idx
    let r := buildChapFrames rest (idx + 1)
    (eid :: r.1,
     { element_id := eid, start_time := c.start_ms, end_time := c.end_ms,
       title := c.title } :: r.2)

/-- `AudiobookMerger.add_chapter_markers`: builds the CHAP frames and
the CTOC frame and saves the tags; when the tag area cannot be written
(`audio.save()` raises) the exception is re-raised to the caller. -/
def addChapterMarkersFn (env : MergeEnv) (chapterInfo : List ChapterBoundary) :
    Except String (List ChapFrame × CTOCFrame) :=
  if env.tagWriteOk then
    let r := buildChapFrames chapterInfo 1
    .ok (r.2, { element_id := ['t', 'o', 'c'], topLevel := true, ordered := true,
                child_element_ids := r.1 })
  else .error "tag write failed"

/-- The result dictionary of `merge_audiobook`: `success` plus the keys
that are present only in the corresponding branch. -/
structure MergeResult where
  success : Bool
  error : Option String
  output_path : Option String
  total_chapters : Option Nat
  total_duration_ms : Option Nat
  chapter_info : Option (List ChapterBoundary)
deriving DecidableEq

/-- A merge run: the returned dictionary together with the combined
audio written to `output_path` by the export step (`none` when the
export was never reached; the export is not undone by later errors). -/
structure MergeRun where
  result : MergeResult
  exportedAudioMs : Option Nat
deriving DecidableEq

/-- `AudiobookMerger.merge_audiobook`, with decoding and the audio
export modelled as succeeding for files present in `env.fs`.  The
surrounding `try`/`except` turns any raised exception — in this model,
the one re-raised by `add_chapter_markers` — into a `success: False`
dictionary carrying the error message. -/
def merge_audiobook (env : MergeEnv) (audioFiles : List AudioFileEntry)
    (outputPath : String) : MergeRun :=
  let r := concatChapters env.fs audioFiles 0
  if r.1.length = 0 then
    { result := { success := false, error := some "Không có file audio hợp lệ để gộp",
                  output_path := none, total_chapters := none,
                  total_duration_ms := none, chapter_info := none },
      exportedAudioMs := none }
  else
    match addChapterMarkersFn env r.1 with
    | .ok _ =>
      { result := { success := true, error := none, output_path := some outputPath,
                    total_chapters := some r.1.length,
                    total_duration_ms := some r.2, chapter_info := some r.1 },
        exportedAudioMs := some r.2 }
    | .error e =>
      { result := { success := false, error := some e, output_path := none,
                    total_chapters := none, total_duration_ms := none,
                    chapter_info := none },
        exportedAudioMs := some r.2 }

/-! ### Batch filename derivation (`TTSApp._batch_process`) -/

/-- The character filter of `_batch_process`:
`c.isalnum() or c in (' ', '-', '_')` (ASCII reading of `isalnum`). -/
def pySafeChar (c : Char) : Bool :=
  c.isAlphanum || c = ' ' || c = '-' || c = '_'

/-- The output-filename derivation of `_batch_process`:
`f"{id}_{title}_Part{part}"` filtered to safe characters, then
stripped.  `id`, `title`, `part` are the already-stringified row
fields. -/
def deriveFilename (id title part : String) : List Char :=
  pyStrip ((id.data ++ '_' :: title.data ++ '_' :: 'P' :: 'a' :: 'r' :: 't' :: part.data).filter
    pySafeChar)

/-! ### Derived notions used by the statements -/

/-- The millisecond value denoted by a timestamp string, when the
timestamp regex matches. -/
def timestampValueInt (l : List Char) : Option Int :=
  (parseTimestamp l).map fun g => (toTotalMs g.1 g.2.1 g.2.2.1 g.2.2.2 : Int)

/-- Retention test on one subtitle block, as the code applies it: at
least two stripped lines, and the second line contains `-->`. -/
def retainedBlock (b : List Char) : Bool :=
  let lines := splitOnChar '\n' (pyStrip b)
  decide (2 ≤ lines.length) && containsArrow (lines.getD 1 [])

/-! ### Lemmas on decimal printing and reading -/

theorem digitChar_isDigit {r : Nat} (h : r < 10) : (digitChar r).isDigit = true := by
  interval_cases r <;> decide

theorem digitChar_toNat {r : Nat} (h : r < 10) : (digitChar r).toNat = 48 + r := by
  interval_cases r <;> decide

theorem natDigitsRevFuel_digits (f : Nat) :
    ∀ n, ∀ c ∈ natDigitsRevFuel f n, c.isDigit = true := by
  induction f with
  | zero => intro n c hc; simp [natDigitsRevFuel] at hc
  | succ f ih =>
    intro n c hc
    match n with
    | 0 => simp [natDigitsRevFuel] at hc
    | m + 1 =>
      rw [natDigitsRevFuel] at hc
      rcases List.mem_cons.mp hc with rfl | hc
      · exact digitChar_isDigit (Nat.mod_lt _ (by omega))
      · exact ih _ c hc

theorem natDigitsRev_digits (n : Nat) : ∀ c ∈ natDigitsRev n, c.isDigit = true :=
  natDigitsRevFuel_digits n n

theorem foldl_natDigitsRevFuel (f : Nat) : ∀ n, n ≤ f → ∀ a : Nat,
    ((natDigitsRevFuel f n).reverse).foldl (fun x c => x * 10 + (c.toNat - 48)) a
      = a * 10 ^ (natDigitsRevFuel f n).length + n := by
  induction f with
  | zero =>
    intro n hn a
    interval_cases n
    simp [natDigitsRevFuel]
  | succ f ih =>
    intro n hn a
    match n with
    | 0 => simp [natDigitsRevFuel]
    | m + 1 =>
      rw [natDigitsRevFuel]
      simp only [List.reverse_cons, List.foldl_append, List.length_cons, List.foldl_cons,
        List.foldl_nil]
      rw [ih ((m + 1) / 10) (by omega) a]
      rw [digitChar_toNat (Nat.mod_lt _ (by omega))]
      have hq : (m + 1) / 10 * 10 + (m + 1) % 10 = m + 1 := by
        have := Nat.div_add_mod (m + 1) 10
        omega
      calc (a * 10 ^ (natDigitsRevFuel f ((m + 1) / 10)).length + (m + 1) / 10) * 10
            + (48 + (m + 1) % 10 - 48)
          = a * (10 ^ (natDigitsRevFuel f ((m + 1) / 10)).length * 10)
            + ((m + 1) / 10 * 10 + (m + 1) % 10) := by ring_nf; omega
        _ = a * 10 ^ ((natDigitsRevFuel f ((m + 1) / 10)).length + 1) + (m + 1) := by
            rw [hq, pow_succ]

theorem foldl_natDigitsRev (n : Nat) : ∀ a : Nat,
    ((natDigitsRev n).reverse).foldl (fun x c => x * 10 + (c.toNat - 48)) a
      = a * 10 ^ (natDigitsRev n).length + n :=
  foldl_natDigitsRevFuel n n le_rfl

theorem digitsVal_natRepr (n : Nat) : digitsVal (natRepr n) = n := by
  by_cases h : n = 0
  · subst h; decide
  · unfold natRepr digitsVal
    rw [if_neg h]
    simpa using foldl_natDigitsRev n 0

theorem digitsVal_zeros_append (k : Nat) (l : List Char) :
    digitsVal (List.replicate k '0' ++ l) = digitsVal l := by
  induction k with
  | zero => simp
  | succ k ih =>
    simp only [List.replicate_succ, List.cons_append]
    unfold digitsVal
    simp only [List.foldl_cons]
    have h0 : (0 : Nat) * 10 + ('0'.toNat - 48) = 0 := by decide
    rw [h0]
    exact ih

theorem digitsVal_zfill (w n : Nat) : digitsVal (zfill w (natRepr n)) = n := by
  unfold zfill
  rw [digitsVal_zeros_append, digitsVal_natRepr]

theorem natRepr_digits (n : Nat) : ∀ c ∈ natRepr n, c.isDigit = true := by
  unfold natRepr
  split
  · intro c hc; simp at hc; subst hc; decide
  · intro c hc; exact natDigitsRev_digits n c (List.mem_reverse.mp hc)

theorem zfill_digits {l : List Char} (hl : ∀ c ∈ l, c.isDigit = true) (w : Nat) :
    ∀ c ∈ zfill w l, c.isDigit = true := by
  intro c hc
  rcases List.mem_append.mp hc with hz | hm
  · have := List.eq_of_mem_replicate hz
    subst this; decide
  · exact hl c hm

theorem natRepr_ne_nil (n : Nat) : natRepr n ≠ [] := by
  unfold natRepr
  split
  · simp
  · simp only [ne_eq, List.reverse_eq_nil_iff]
    match n with
    | m + 1 => rw [natDigitsRev, natDigitsRevFuel]; simp

theorem zfill_ne_nil {l : List Char} (hl : l ≠ []) (w : Nat) : zfill w l ≠ [] := by
  unfold zfill
  simp [hl]

/-! ### Lemmas on `takeWhile`/`dropWhile` and the timestamp regex -/

theorem takeWhile_all_digits {p : Char → Bool} :
    ∀ {l : List Char}, (∀ c ∈ l, p c = true) → l.takeWhile p = l ∧ l.dropWhile p = [] := by
  intro l
  induction l with
  | nil => intro _; exact ⟨rfl, rfl⟩
  | cons c rest ih =>
    intro h
    have hc : p c = true := h c (List.mem_cons_self c rest)
    have hr := ih fun a ha => h a (List.mem_cons_of_mem c ha)
    constructor
    · rw [List.takeWhile_cons, hc]
      simp [hr.1]
    · rw [List.dropWhile_cons, hc]
      simpa using hr.2

theorem takeWhile_append_stop {p : Char → Bool} {c : Char} (hc : p c = false) :
    ∀ (l1 l2 : List Char), (∀ a ∈ l1, p a = true) →
      (l1 ++ c :: l2).takeWhile p = l1 ∧ (l1 ++ c :: l2).dropWhile p = c :: l2 := by
  intro l1
  induction l1 with
  | nil =>
    intro l2 _
    constructor
    · rw [List.nil_append, List.takeWhile_cons, hc]
      simp
    · rw [List.nil_append, List.dropWhile_cons, hc]
      simp
  | cons a rest ih =>
    intro l2 h
    have ha : p a = true := h a (List.mem_cons_self a rest)
    have hr := ih l2 fun b hb => h b (List.mem_cons_of_mem a hb)
    constructor
    · rw [List.cons_append, List.takeWhile_cons, ha]
      simp [hr.1]
    · rw [List.cons_append, List.dropWhile_cons, ha]
      simpa using hr.2

theorem isEmpty_false_of_ne_nil {l : List Char} (h : l ≠ []) : l.isEmpty = false := by
  cases l with
  | nil => exact absurd rfl h
  | cons a rest => rfl

theorem parseTimestamp_canonical (g1 g2 g3 g4 : List Char)
    (h1 : ∀ c ∈ g1, c.isDigit = true) (n1 : g1 ≠ [])
    (h2 : ∀ c ∈ g2, c.isDigit = true) (n2 : g2 ≠ [])
    (h3 : ∀ c ∈ g3, c.isDigit = true) (n3 : g3 ≠ [])
    (h4 : ∀ c ∈ g4, c.isDigit = true) (n4 : g4 ≠ []) :
    parseTimestamp (g1 ++ (':' :: (g2 ++ (':' :: (g3 ++ (',' :: g4))))))
      = some (digitsVal g1, digitsVal g2, digitsVal g3, digitsVal g4) := by
  have s1 := takeWhile_append_stop (p := Char.isDigit) (c := ':') (by decide)
    g1 (g2 ++ (':' :: (g3 ++ (',' :: g4)))) h1
  have s2 := takeWhile_append_stop (p := Char.isDigit) (c := ':') (by decide)
    g2 (g3 ++ (',' :: g4)) h2
  have s3 := takeWhile_append_stop (p := Char.isDigit) (c := ',') (by decide)
    g3 g4 h3
  have s4 := takeWhile_all_digits (p := Char.isDigit) h4
  simp only [parseTimestamp, s1.1, s1.2, isEmpty_false_of_ne_nil n1, s2.1, s2.2,
    isEmpty_false_of_ne_nil n2, s3.1, s3.2, isEmpty_false_of_ne_nil n3, s4.1,
    isEmpty_false_of_ne_nil n4, Bool.false_eq_true, if_false]
  simp

theorem intPad_natCast (w k : Nat) : intPad w ((k : Nat) : Int) = zfill w (natRepr k) := by
  unfold intPad
  rw [if_neg (by exact Int.not_lt.mpr (Int.natCast_nonneg k))]
  simp

theorem formatFromTotal_natCast (n : Nat) :
    formatFromTotal ((n : Nat) : Int)
      = zfill 2 (natRepr (n / 3600000))
        ++ (':' :: (zfill 2 (natRepr (n % 3600000 / 60000))
        ++ (':' :: (zfill 2 (natRepr (n % 3600000 % 60000 / 1000))
        ++ (',' :: zfill 3 (natRepr (n % 3600000 % 60000 % 1000))))))) := by
  have e1 : ((n : Nat) : Int).ediv 3600000 = ((n / 3600000 : Nat) : Int) := rfl
  have e2 : ((n : Nat) : Int).emod 3600000 = ((n % 3600000 : Nat) : Int) := rfl
  have e3 : ((n % 3600000 : Nat) : Int).ediv 60000
      = ((n % 3600000 / 60000 : Nat) : Int) := rfl
  have e4 : ((n % 3600000 : Nat) : Int).emod 60000
      = ((n % 3600000 % 60000 : Nat) : Int) := rfl
  have e5 : ((n % 3600000 % 60000 : Nat) : Int).ediv 1000
      = ((n % 3600000 % 60000 / 1000 : Nat) : Int) := rfl
  have e6 : ((n % 3600000 % 60000 : Nat) : Int).emod 1000
      = ((n % 3600000 % 60000 % 1000 : Nat) : Int) := rfl
  unfold formatFromTotal
  rw [e1, e2, e3, e4, e5, e6, intPad_natCast, intPad_natCast, intPad_natCast, intPad_natCast]
  simp only [List.append_assoc, List.cons_append]

theorem parse_formatFromTotal {t : Int} (ht : 0 ≤ t) :
    timestampValueInt (formatFromTotal t) = some t := by
  obtain ⟨n, rfl⟩ := Int.eq_ofNat_of_zero_le ht
  rw [formatFromTotal_natCast]
  unfold timestampValueInt
  rw [parseTimestamp_canonical _ _ _ _
    (zfill_digits (natRepr_digits _) 2) (zfill_ne_nil (natRepr_ne_nil _) 2)
    (zfill_digits (natRepr_digits _) 2) (zfill_ne_nil (natRepr_ne_nil _) 2)
    (zfill_digits (natRepr_digits _) 2) (zfill_ne_nil (natRepr_ne_nil _) 2)
    (zfill_digits (natRepr_digits _) 3) (zfill_ne_nil (natRepr_ne_nil _) 3)]
  simp only [Option.map_some', digitsVal_zfill, Option.some.injEq]
  unfold toTotalMs
  omega

/-! ### Claim C2 -/

/-- Claim C2, counterexample: shifting `00:00:00,000` by `-1` ms is not
clamped at zero — the code emits the negative-hour timestamp
`-1:59:59,999` — and the reverse shift by `+1` does not return the
original value (the negative timestamp no longer matches the regex, so
it is passed through unchanged). -/
theorem c2_not_clamped_counterexample :
    addOffsetToTimestampS "00:00:00,000" (-1) = "-1:59:59,999"
      ∧ addOffsetToTimestampS (addOffsetToTimestampS "00:00:00,000" (-1)) 1
          ≠ "00:00:00,000" := by
  decide

/-- Claim C2, amended: for every timestamp string matched by the regex
and every offset such that the shifted time stays nonnegative (in
particular every nonnegative offset), shifting by `+offset` and then by
`-offset` returns the original timestamp value exactly.  When the shift
goes below zero the result is **not** clamped: a negative-hour
timestamp is produced (see the counterexample). -/
theorem c2_offset_roundtrip (ts : List Char) (h m s ms : Nat) (k : Int)
    (hp : parseTimestamp ts = some (h, m, s, ms))
    (hnn : 0 ≤ (toTotalMs h m s ms : Int) + k) :
    timestampValueInt (addOffsetToTimestamp (addOffsetToTimestamp ts k) (-k))
      = some ((toTotalMs h m s ms : Int)) := by
  have h1 : addOffsetToTimestamp ts k
      = formatFromTotal ((toTotalMs h m s ms : Int) + k) := by
    unfold addOffsetToTimestamp
    rw [hp]
  have h2 := parse_formatFromTotal hnn
  unfold timestampValueInt at h2
  rcases hpp : parseTimestamp (formatFromTotal ((toTotalMs h m s ms : Int) + k)) with _ | g
  · rw [hpp] at h2
    exact absurd h2 (by simp)
  · rw [hpp] at h2
    simp only [Option.map_some', Option.some.injEq] at h2
    have h3 : addOffsetToTimestamp (formatFromTotal ((toTotalMs h m s ms : Int) + k)) (-k)
        = formatFromTotal ((toTotalMs g.1 g.2.1 g.2.2.1 g.2.2.2 : Int) + (-k)) := by
      unfold addOffsetToTimestamp
      rw [hpp]
    have h4 : (toTotalMs g.1 g.2.1 g.2.2.1 g.2.2.2 : Int) + (-k)
        = (toTotalMs h m s ms : Int) := by omega
    rw [h1, h3, h4]
    exact parse_formatFromTotal (Int.natCast_nonneg _)

/-- Claim C2, witness for the amended round-trip at a concrete input. -/
theorem c2_offset_roundtrip_witness :
    timestampValueInt
        (addOffsetToTimestamp (addOffsetToTimestamp "00:12:05,250".data 4000) (-4000))
      = some ((toTotalMs 0 12 5 250 : Int)) :=
  c2_offset_roundtrip "00:12:05,250".data 0 12 5 250 4000 (by decide) (by decide)

/-! ### Claim C8 -/

theorem processBlock_isSome (off : Int) (i : Nat) (b : List Char) :
    (processBlock off i b).isSome = retainedBlock b := by
  unfold processBlock retainedBlock
  by_cases he : (pyStrip b).isEmpty
  · have hnil : pyStrip b = [] := by simpa using he
    rw [hnil]
    simp [splitOnChar]
  · simp only [he, Bool.false_eq_true, if_false]
    by_cases hlen : (splitOnChar '\n' (pyStrip b)).length < 2
    · simp [hlen, Nat.not_le.mpr hlen]
    · by_cases harr : containsArrow ((splitOnChar '\n' (pyStrip b))[1]?.getD [])
      · simp [hlen, harr, Nat.le_of_not_lt hlen]
      · simp [hlen, harr, Nat.le_of_not_lt hlen]

theorem adjustTimingGo_filter (off : Int) :
    ∀ (blocks : List (List Char)) (i : Nat),
      adjustTimingGo off blocks i
        = adjustTimingGo off (blocks.filter retainedBlock) i := by
  intro blocks
  induction blocks with
  | nil => intro i; rfl
  | cons b rest ih =>
    intro i
    rcases hb : processBlock off i b with _ | nb
    · have hr : retainedBlock b = false := by
        have hs := processBlock_isSome off i b
        rw [hb] at hs
        simpa using hs.symm


      rw [adjustTimingGo, hb, List.filter_cons, hr]
      simp only [Bool.false_eq_true, if_false]
      exact ih i
    · have hr : retainedBlock b = true := by
        have hs := processBlock_isSome off i b
        rw [hb] at hs
        simpa using hs.symm
      rw [adjustTimingGo, hb, List.filter_cons, hr]
      simp only [if_true]
      rw [adjustTimingGo, hb]
      rw [ih (i + 1)]

theorem adjustTimingGo_length_of_retained (off : Int) :
    ∀ (blocks : List (List Char)) (i : Nat), (∀ b ∈ blocks, retainedBlock b = true) →
      (adjustTimingGo off blocks i).length = blocks.length := by
  intro blocks
  induction blocks with
  | nil => intro i _; rfl
  | cons b rest ih =>
    intro i hall
    have hb : (processBlock off i b).isSome = true := by
      rw [processBlock_isSome]
      exact hall b (List.mem_cons_self b rest)
    rcases Option.isSome_iff_exists.mp hb with ⟨nb, hnb⟩
    rw [adjustTimingGo, hnb]
    simp only [List.length_cons]
    rw [ih (i + 1) fun x hx => hall x (List.mem_cons_of_mem b hx)]

/-- Claim C8, counterexample: the block `"1\nfoo --> bar\nhello"` has a
timing line whose timestamps do not match the `HH:MM:SS[,.]mmm` pattern
(`parseTimestamp "foo" = none`), yet `_adjust_subtitle_timing` retains
the block — with the unparseable timestamps passed through unchanged —
instead of dropping it as the claim requires. -/
theorem c8_malformed_timestamp_retained_counterexample :
    (adjustSubtitleTiming ("1\nfoo --> bar\nhello").data 0 1).length = 1
      ∧ parseTimestamp "foo".data = none
      ∧ adjustSubtitleTiming ("1\nfoo --> bar\nhello").data 0 1
          = [("1\nfoo --> bar\nhello").data] := by
  decide

/-- Claim C8, amended: a block is retained iff it has at least two
(stripped) lines and its second line contains `-->`; the timestamps on
the timing line need not match the timestamp pattern (unparseable ones
pass through unchanged).  Every retained block contributes exactly one
output block and every other block is dropped silently: the output is
the processing of exactly the retained blocks. -/
theorem c8_block_retention (content : List Char) (offsetMs : Int) (startIndex : Nat) :
    adjustSubtitleTiming content offsetMs startIndex
      = adjustTimingGo offsetMs ((splitBlocks (pyStrip content)).filter retainedBlock)
          startIndex
    ∧ (adjustSubtitleTiming content offsetMs startIndex).length
      = ((splitBlocks (pyStrip content)).filter retainedBlock).length := by
  constructor
  · exact adjustTimingGo_filter offsetMs (splitBlocks (pyStrip content)) startIndex
  · unfold adjustSubtitleTiming
    rw [adjustTimingGo_filter offsetMs (splitBlocks (pyStrip content)) startIndex]
    exact adjustTimingGo_length_of_retained offsetMs _ startIndex
      fun b hb => (List.mem_filter.mp hb).2

/-! ### Lemmas on `concatChapters` -/

theorem concatChapters_end_eq (fs : String → Option Nat) :
    ∀ (files : List AudioFileEntry) (pos : Nat) (b : ChapterBoundary),
      b ∈ (concatChapters fs files pos).1 → b.end_ms = b.start_ms + b.duration_ms := by
  intro files
  induction files with
  | nil => intro pos b hb; simp [concatChapters] at hb
  | cons f rest ih =>
    intro pos b hb
    unfold concatChapters at hb
    rcases hf : fs f.path with _ | d <;> rw [hf] at hb
    · exact ih pos b hb
    · simp only [List.mem_cons] at hb
      rcases hb with rfl | hb
      · rfl
      · exact ih (pos + d) b hb

theorem concatChapters_head_start (fs : String → Option Nat) :
    ∀ (files : List AudioFileEntry) (pos : Nat) (b : ChapterBoundary),
      ((concatChapters fs files pos).1).head? = some b → b.start_ms = pos := by
  intro files
  induction files with
  | nil => intro pos b hb; simp [concatChapters] at hb
  | cons f rest ih =>
    intro pos b hb
    unfold concatChapters at hb
    rcases hf : fs f.path with _ | d <;> rw [hf] at hb
    · exact ih pos b hb
    · simp only [List.head?_cons, Option.some.injEq] at hb
      rw [← hb]

theorem concatChapters_chain (fs : String → Option Nat) :
    ∀ (files : List AudioFileEntry) (pos : Nat),
      List.Chain' (fun a b => b.start_ms = a.end_ms) ((concatChapters fs files pos).1) := by
  intro files
  induction files with
  | nil => intro pos; simp [concatChapters]
  | cons f rest ih =>
    intro pos
    unfold concatChapters
    rcases hf : fs f.path with _ | d
    · exact ih pos
    · simp only
      rw [List.chain'_cons']
      refine ⟨?_, ih (pos + d)⟩
      intro y hy
      rw [concatChapters_head_start fs rest (pos + d) y hy]

theorem concatChapters_snd (fs : String → Option Nat) :
    ∀ (files : List AudioFileEntry) (pos : Nat),
      (concatChapters fs files pos).2
        = pos + (((concatChapters fs files pos).1).map (·.duration_ms)).sum := by
  intro files
  induction files with
  | nil => intro pos; simp [concatChapters]
  | cons f rest ih =>
    intro pos
    unfold concatChapters
    rcases hf : fs f.path with _ | d
    · exact ih pos
    · simp only [List.map_cons, List.sum_cons]
      rw [ih (pos + d)]
      omega

theorem concatChapters_getLast_end (fs : String → Option Nat) :
    ∀ (files : List AudioFileEntry) (pos : Nat) (b : ChapterBoundary),
      ((concatChapters fs files pos).1).getLast? = some b →
        b.end_ms = (concatChapters fs files pos).2 := by
  intro files
  induction files with
  | nil => intro pos b hb; simp [concatChapters] at hb
  | cons f rest ih =>
    intro pos b hb
    unfold concatChapters at hb ⊢
    rcases hf : fs f.path with _ | d
    · rw [hf] at hb
      dsimp only at hb ⊢
      exact ih pos b hb
    · rw [hf] at hb
      dsimp only at hb ⊢
      rcases hrest : (concatChapters fs rest (pos + d)).1 with _ | ⟨y, t⟩
      · rw [hrest] at hb
        simp only [List.getLast?_singleton, Option.some.injEq] at hb
        have hsnd := concatChapters_snd fs rest (pos + d)
        rw [hrest] at hsnd
        simp only [List.map_nil, List.sum_nil, Nat.add_zero] at hsnd
        rw [← hb, hsnd]
      · rw [hrest, List.getLast?_cons_cons] at hb
        exact ih (pos + d) b (by rw [hrest]; exact hb)

theorem concatChapters_map_duration (fs : String → Option Nat) :
    ∀ (files : List AudioFileEntry) (pos : Nat),
      ((concatChapters fs files pos).1).map (·.duration_ms)
        = files.filterMap (fun f => fs f.path) := by
  intro files
  induction files with
  | nil => intro pos; simp [concatChapters]
  | cons f rest ih =>
    intro pos
    unfold concatChapters
    rcases hf : fs f.path with _ | d <;> rw [List.filterMap_cons, hf]
    · exact ih pos
    · simp only [List.map_cons]
      rw [ih (pos + d)]

theorem concatChapters_length (fs : String → Option Nat) :
    ∀ (files : List AudioFileEntry) (pos : Nat),
      ((concatChapters fs files pos).1).length
        = (files.filter (fun f => (fs f.path).isSome)).length := by
  intro files
  induction files with
  | nil => intro pos; simp [concatChapters]
  | cons f rest ih =>
    intro pos
    unfold concatChapters
    rcases hf : fs f.path with _ | d <;> rw [List.filter_cons, hf]
    · simp only [Option.isSome_none, Bool.false_eq_true, if_false]
      exact ih pos
    · simp only [Option.isSome_some, if_true, List.length_cons]
      rw [ih (pos + d)]

/-! ### Claim C6 -/

/-- Claim C6: for every successful merge, consecutive boundaries are
contiguous (`start_ms[i+1] = end_ms[i]`), each boundary is
non-decreasing (`start_ms ≤ end_ms`), the first boundary starts at 0,
the last boundary ends at the reported total duration, and the total
duration is the sum of all `duration_ms`. -/
theorem c6_boundary_invariants (env : MergeEnv) (files : List AudioFileEntry)
    (out : String) (ci : List ChapterBoundary) (T : Nat)
    (hci : (merge_audiobook env files out).result.chapter_info = some ci)
    (hT : (merge_audiobook env files out).result.total_duration_ms = some T) :
    List.Chain' (fun a b => b.start_ms = a.end_ms) ci
    ∧ (∀ b ∈ ci, b.start_ms ≤ b.end_ms)
    ∧ (∀ b, ci.head? = some b → b.start_ms = 0)
    ∧ (∀ b, ci.getLast? = some b → b.end_ms = T)
    ∧ T = (ci.map (·.duration_ms)).sum := by
  have hshape : ci = (concatChapters env.fs files 0).1
      ∧ T = (concatChapters env.fs files 0).2 := by
    unfold merge_audiobook addChapterMarkersFn at hci hT
    by_cases hz : ((concatChapters env.fs files 0).1).length = 0 <;>
      by_cases htag : env.tagWriteOk <;>
      simp [hz, htag] at hci hT <;>
      exact ⟨hci.symm, hT.symm⟩
  obtain ⟨h1, h2⟩ := hshape
  subst h1
  subst h2
  refine ⟨concatChapters_chain env.fs files 0, ?_, ?_, ?_, ?_⟩
  · intro b hb
    rw [concatChapters_end_eq env.fs files 0 b hb]
    omega
  · intro b hb
    exact concatChapters_head_start env.fs files 0 b hb
  · intro b hb
    exact (concatChapters_getLast_end env.fs files 0 b hb).symm ▸ rfl
  · have := concatChapters_snd env.fs files 0
    omega

/-- Claim C6, witness: a successful two-chapter merge (5000 ms and
6500 ms) yields contiguous boundaries summing to the reported total. -/
theorem c6_boundary_invariants_witness :
    List.Chain' (fun a b => b.start_ms = a.end_ms)
        ([⟨"1", "Ch1", 0, 5000, 5000⟩, ⟨"2", "Ch2", 5000, 11500, 6500⟩] :
          List ChapterBoundary)
      ∧ (11500 : Nat)
        = (([⟨"1", "Ch1", 0, 5000, 5000⟩, ⟨"2", "Ch2", 5000, 11500, 6500⟩] :
            List ChapterBoundary).map (·.duration_ms)).sum := by
  have h := c6_boundary_invariants
    ⟨fun p => if p = "a.mp3" then some 5000 else if p = "b.mp3" then some 6500 else none,
     true⟩
    [⟨"a.mp3", "Ch1", "1"⟩, ⟨"b.mp3", "Ch2", "2"⟩] "out.mp3"
    [⟨"1", "Ch1", 0, 5000, 5000⟩, ⟨"2", "Ch2", 5000, 11500, 6500⟩] 11500
    (by decide) (by decide)
  exact ⟨h.1, h.2.2.2.2⟩

/-! ### Claim C7 -/

/-- Claim C7: a chapter whose audio file is missing is skipped without
failing the merge: the boundary list has exactly one entry per existing
file, its durations are exactly the surviving files' durations in
order, the total duration is their sum, consecutive surviving chapters
remain contiguous (no gap), and — as long as at least one file exists
and the tag write succeeds — the merge reports success. -/
theorem c7_missing_files_skipped (env : MergeEnv) (files : List AudioFileEntry)
    (out : String)
    (hex : ∃ f ∈ files, (env.fs f.path).isSome = true)
    (htag : env.tagWriteOk = true) :
    ((concatChapters env.fs files 0).1).length
        = (files.filter (fun f => (env.fs f.path).isSome)).length
    ∧ ((concatChapters env.fs files 0).1).map (·.duration_ms)
        = files.filterMap (fun f => env.fs f.path)
    ∧ (concatChapters env.fs files 0).2
        = (files.filterMap (fun f => env.fs f.path)).sum
    ∧ List.Chain' (fun a b => b.start_ms = a.end_ms) ((concatChapters env.fs files 0).1)
    ∧ (merge_audiobook env files out).result.success = true := by
  obtain ⟨f, hf, hfs⟩ := hex
  have hlen : ((concatChapters env.fs files 0).1).length ≠ 0 := by
    rw [concatChapters_length]
    have hmem : f ∈ files.filter (fun f => (env.fs f.path).isSome) :=
      List.mem_filter.mpr ⟨hf, hfs⟩
    have := List.length_pos.mpr (List.ne_nil_of_mem hmem)
    omega
  refine ⟨concatChapters_length env.fs files 0, concatChapters_map_duration env.fs files 0,
    ?_, concatChapters_chain env.fs files 0, ?_⟩
  · rw [concatChapters_snd, concatChapters_map_duration]
    omega
  · unfold merge_audiobook addChapterMarkersFn
    simp [hlen, htag]

/-- Claim C7, witness: three chapters with the second file missing — the
boundary list has 2 entries, the total is `4000 + 2500`, and the merge
succeeds. -/
theorem c7_missing_files_skipped_witness :
    ((concatChapters
        (fun p => if p = "c1.mp3" then some 4000
                  else if p = "c3.mp3" then some 2500 else none)
        [⟨"c1.mp3", "A", "1"⟩, ⟨"c2.mp3", "B", "2"⟩, ⟨"c3.mp3", "C", "3"⟩] 0).1).length
      = (([⟨"c1.mp3", "A", "1"⟩, ⟨"c2.mp3", "B", "2"⟩, ⟨"c3.mp3", "C", "3"⟩] :
            List AudioFileEntry).filter
          (fun f => ((fun p => if p = "c1.mp3" then some 4000
                  else if p = "c3.mp3" then some 2500 else none) f.path).isSome)).length
    ∧ (concatChapters
        (fun p => if p = "c1.mp3" then some 4000
                  else if p = "c3.mp3" then some 2500 else none)
        [⟨"c1.mp3", "A", "1"⟩, ⟨"c2.mp3", "B", "2"⟩, ⟨"c3.mp3", "C", "3"⟩] 0).2
      = (([⟨"c1.mp3", "A", "1"⟩, ⟨"c2.mp3", "B", "2"⟩, ⟨"c3.mp3", "C", "3"⟩] :
            List AudioFileEntry).filterMap
          (fun f => (fun p => if p = "c1.mp3" then some 4000
                  else if p = "c3.mp3" then some 2500 else none) f.path)).sum
    ∧ (merge_audiobook
        ⟨fun p => if p = "c1.mp3" then some 4000
                  else if p = "c3.mp3" then some 2500 else none, true⟩
        [⟨"c1.mp3", "A", "1"⟩, ⟨"c2.mp3", "B", "2"⟩, ⟨"c3.mp3", "C", "3"⟩]
        "out.mp3").result.success = true := by
  have h := c7_missing_files_skipped
    ⟨fun p => if p = "c1.mp3" then some 4000
              else if p = "c3.mp3" then some 2500 else none, true⟩
    [⟨"c1.mp3", "A", "1"⟩, ⟨"c2.mp3", "B", "2"⟩, ⟨"c3.mp3", "C", "3"⟩] "out.mp3"
    ⟨⟨"c1.mp3", "A", "1"⟩, by decide, by decide⟩ rfl
  exact ⟨h.1, h.2.2.1, h.2.2.2.2⟩

/-! ### Claim C9 -/

theorem buildChapFrames_ids :
    ∀ (ci : List ChapterBoundary) (idx : Nat),
      (buildChapFrames ci idx).1 = ((buildChapFrames ci idx).2).map (·.element_id)
      ∧ ((buildChapFrames ci idx).2).length = ci.length
      ∧ (buildChapFrames ci idx).1
          = (List.range ci.length).map (fun k => chapElementId (idx + k)) := by
  intro ci
  induction ci with
  | nil => intro idx; exact ⟨rfl, rfl, rfl⟩
  | cons c rest ih =>
    intro idx
    unfold buildChapFrames
    dsimp only
    obtain ⟨i1, i2, i3⟩ := ih (idx + 1)
    refine ⟨?_, ?_, ?_⟩
    · simp only [List.map_cons]
      rw [i1]
    · simp only [List.length_cons]
      rw [i2]
    · simp only [List.length_cons, List.range_succ_eq_map, List.map_cons, List.map_map]
      rw [i3]
      congr 1
      apply List.map_congr_left
      intro k _
      show chapElementId (idx + 1 + k) = chapElementId (idx + (k + 1))
      congr 1
      omega

/-- Claim C9: whenever `add_chapter_markers` succeeds, the CTOC frame's
child-id list equals the ordered list of the chapter frames' element
ids, the frame count equals the boundary count, and the ids are
`chap001`, `chap002`, … assigned in chapter order. -/
theorem c9_ctoc_child_ids (env : MergeEnv) (ci : List ChapterBoundary)
    (frames : List ChapFrame) (ctoc : CTOCFrame)
    (h : addChapterMarkersFn env ci = .ok (frames, ctoc)) :
    ctoc.child_element_ids = frames.map (·.element_id)
    ∧ frames.length = ci.length
    ∧ ctoc.child_element_ids.length = ci.length
    ∧ ctoc.child_element_ids
        = (List.range ci.length).map (fun k => chapElementId (k + 1)) := by
  unfold addChapterMarkersFn at h
  by_cases htag : env.tagWriteOk
  · rw [if_pos htag] at h
    dsimp only at h
    obtain ⟨hfr, hct⟩ : (buildChapFrames ci 1).2 = frames
        ∧ ({ element_id := ['t', 'o', 'c'], topLevel := true, ordered := true,
             child_element_ids := (buildChapFrames ci 1).1 } : CTOCFrame) = ctoc := by
      have := h
      simp only [Except.ok.injEq, Prod.mk.injEq] at this
      exact this
    subst hfr
    subst hct
    obtain ⟨i1, i2, i3⟩ := buildChapFrames_ids ci 1
    refine ⟨i1, i2, ?_, ?_⟩
    · show (buildChapFrames ci 1).1.length = ci.length
      rw [i1, List.length_map, i2]
    · show (buildChapFrames ci 1).1 = _
      rw [i3]
      apply List.map_congr_left
      intro k _
      congr 1
      omega
  · rw [if_neg htag] at h
    exact absurd h (by simp)

/-- Claim C9, witness at two boundaries. -/
theorem c9_ctoc_child_ids_witness :
    ({ element_id := ['t', 'o', 'c'], topLevel := true, ordered := true,
       child_element_ids := (buildChapFrames
         [⟨"1", "A", 0, 5, 5⟩, ⟨"2", "B", 5, 8, 3⟩] 1).1 } : CTOCFrame).child_element_ids
      = ((buildChapFrames [⟨"1", "A", 0, 5, 5⟩, ⟨"2", "B", 5, 8, 3⟩] 1).2).map
          (·.element_id)
    ∧ ({ element_id := ['t', 'o', 'c'], topLevel := true, ordered := true,
         child_element_ids := (buildChapFrames
           [⟨"1", "A", 0, 5, 5⟩, ⟨"2", "B", 5, 8, 3⟩] 1).1 } : CTOCFrame).child_element_ids
      = (List.range 2).map (fun k => chapElementId (k + 1)) := by
  have h := c9_ctoc_child_ids ⟨fun _ => none, true⟩
    [⟨"1", "A", 0, 5, 5⟩, ⟨"2", "B", 5, 8, 3⟩]
    (buildChapFrames [⟨"1", "A", 0, 5, 5⟩, ⟨"2", "B", 5, 8, 3⟩] 1).2
    ({ element_id := ['t', 'o', 'c'], topLevel := true, ordered := true,
       child_element_ids := (buildChapFrames
         [⟨"1", "A", 0, 5, 5⟩, ⟨"2", "B", 5, 8, 3⟩] 1).1 }) rfl
  exact ⟨h.1, h.2.2.2⟩

/-! ### Claim C10 -/

/-- Claim C10: `merge_audiobook` is a total function of its inputs —
every run returns a result dictionary, never an unhandled exception.  A
successful result carries `output_path`, `total_chapters`,
`total_duration_ms` and `chapter_info` and no error; an unsuccessful
result carries an error message. -/
theorem c10_total_result_shape (env : MergeEnv) (files : List AudioFileEntry)
    (out : String) :
    ((merge_audiobook env files out).result.success = true →
      (merge_audiobook env files out).result.error = none
      ∧ (merge_audiobook env files out).result.output_path = some out
      ∧ (merge_audiobook env files out).result.total_chapters
          = some ((concatChapters env.fs files 0).1).length
      ∧ (merge_audiobook env files out).result.total_duration_ms
          = some (concatChapters env.fs files 0).2
      ∧ (merge_audiobook env files out).result.chapter_info
          = some (concatChapters env.fs files 0).1)
    ∧ ((merge_audiobook env files out).result.success = false →
      ∃ e, (merge_audiobook env files out).result.error = some e) := by
  unfold merge_audiobook addChapterMarkersFn
  by_cases hz : ((concatChapters env.fs files 0).1).length = 0 <;>
    by_cases htag : env.tagWriteOk <;>
    simp [hz, htag]

/-- Claim C10, witness: a successful run carries no error. -/
theorem c10_total_result_shape_witness :
    (merge_audiobook ⟨fun _ => some 5, true⟩ [⟨"x.mp3", "T", "1"⟩] "o.mp3").result.error
      = none := by
  have h := c10_total_result_shape ⟨fun _ => some 5, true⟩ [⟨"x.mp3", "T", "1"⟩] "o.mp3"
  exact (h.1 (by decide)).1

/-! ### Claim C4 -/

/-- Claim C4, counterexample: with one existing chapter file and an
unwritable tag area, `merge_audiobook` reports `success = False` even
though the merged audio was already exported — the exception raised by
`add_chapter_markers` propagates into the merge's `except` handler, so
the claim that the merge "still reports the merged audio as produced (a
successful result)" is false. -/
theorem c4_tag_failure_counterexample :
    ((merge_audiobook ⟨fun _ => some 1000, false⟩ [⟨"c.mp3", "Ch", "1"⟩]
        "out.mp3").result.success = false)
    ∧ (merge_audiobook ⟨fun _ => some 1000, false⟩ [⟨"c.mp3", "Ch", "1"⟩]
        "out.mp3").exportedAudioMs = some 1000 := by
  decide

/-- Claim C4, amended: if `add_chapter_markers` fails, `merge_audiobook`
reports failure (`success: False` with the error message) — not
success — but the combined audio has already been exported before the
tagging step, and that exported audio is not invalidated by the
failure. -/
theorem c4_tag_failure_fails_merge (env : MergeEnv) (files : List AudioFileEntry)
    (out : String) (htag : env.tagWriteOk = false)
    (hne : ((concatChapters env.fs files 0).1).length ≠ 0) :
    (merge_audiobook env files out).result.success = false
    ∧ (merge_audiobook env files out).result.error = some "tag write failed"
    ∧ (merge_audiobook env files out).exportedAudioMs
        = some (concatChapters env.fs files 0).2 := by
  unfold merge_audiobook addChapterMarkersFn
  simp [hne, htag]

/-- Claim C4, witness for the amended statement. -/
theorem c4_tag_failure_fails_merge_witness :
    (merge_audiobook ⟨fun _ => some 2000, false⟩ [⟨"d.mp3", "Ch", "1"⟩]
        "o.mp3").result.success = false
    ∧ (merge_audiobook ⟨fun _ => some 2000, false⟩ [⟨"d.mp3", "Ch", "1"⟩]
        "o.mp3").exportedAudioMs
      = some (concatChapters (fun _ => some 2000) [⟨"d.mp3", "Ch", "1"⟩] 0).2 := by
  have h := c4_tag_failure_fails_merge ⟨fun _ => some 2000, false⟩
    [⟨"d.mp3", "Ch", "1"⟩] "o.mp3" rfl (by decide)
  exact ⟨h.1, h.2.2⟩

/-! ### Claim C1 -/

theorem calcOffsetsGo_getD :
    ∀ (ds : List ℚ) (c : ℚ) (k : Nat), k < ds.length →
      (calcOffsetsGo c ds).getD k 0 = c + (ds.take k).sum := by
  intro ds
  induction ds with
  | nil => intro c k hk; simp at hk
  | cons d rest ih =>
    intro c k hk
    match k with
    | 0 => simp [calcOffsetsGo]
    | k + 1 =>
      simp only [calcOffsetsGo, List.getD_cons_succ, List.take_succ_cons, List.sum_cons]
      rw [ih (c + d) k (by simpa using hk)]
      ring

theorem take_sum_mul_1000 :
    ∀ (dursS : List ℚ) (dursMs : List Nat), dursS.length = dursMs.length →
      (∀ i, i < dursMs.length →
        (dursS.getD i 0) * 1000 = ((dursMs.getD i 0 : Nat) : ℚ)) →
      ∀ k, ((dursS.take k).sum) * 1000 = (((dursMs.take k).sum : Nat) : ℚ) := by
  intro dursS
  induction dursS with
  | nil =>
    intro dursMs hlen hpt k
    cases dursMs with
    | nil => simp
    | cons m ms => simp at hlen
  | cons d ds ih =>
    intro dursMs hlen hpt k
    cases dursMs with
    | nil => simp at hlen
    | cons m ms =>
      match k with
      | 0 => simp
      | k + 1 =>
        simp only [List.take_succ_cons, List.sum_cons, Nat.cast_add]
        have h0 := hpt 0 (by simp)
        simp only [List.getD_cons_zero] at h0
        have hrec := ih ms (by simpa using hlen)
          (fun i hi => by
            have := hpt (i + 1) (by simpa using Nat.succ_lt_succ hi)
            simpa using this) k
        rw [add_mul, h0, hrec]

theorem pyInt_natCast (n : Nat) : pyInt ((n : Nat) : ℚ) = (n : Int) := by
  unfold pyInt
  rw [if_neg (by exact not_lt.mpr (by positivity))]
  rw [Rat.floor_def']
  simp

theorem concatChapters_start_at (fs : String → Option Nat) :
    ∀ (files : List AudioFileEntry) (dms : List Nat) (pos : Nat),
      files.map (fun f => fs f.path) = dms.map some →
      ∀ k, k < dms.length →
        ∃ b, ((concatChapters fs files pos).1)[k]? = some b
          ∧ b.start_ms = pos + (dms.take k).sum := by
  intro files
  induction files with
  | nil =>
    intro dms pos hmap k hk
    cases dms with
    | nil => simp at hk
    | cons m ms => simp at hmap
  | cons f rest ih =>
    intro dms pos hmap k hk
    cases dms with
    | nil => simp at hk
    | cons m ms =>
      simp only [List.map_cons, List.cons.injEq] at hmap
      obtain ⟨hf, hrest⟩ := hmap
      unfold concatChapters
      rw [hf]
      dsimp only
      match k with
      | 0 => exact ⟨⟨f.id, f.title, pos, pos + m, m⟩, by simp, by simp⟩
      | k + 1 =>
        simp only [List.getElem?_cons_succ, List.take_succ_cons, List.sum_cons]
        obtain ⟨b, hb, hs⟩ := ih ms (pos + m) hrest k (by simpa using hk)
        exact ⟨b, hb, by rw [hs]; omega⟩

/-- Claim C1, counterexample: the claimed equality fails under the
program's actual binary64 float arithmetic.  With composer durations
`0.1` s and `0.7` s and merger durations `100` ms and `700` ms — the
same per-chapter durations, as the program itself converts them
(`0.1 * 1000` and `0.7 * 1000` are exactly `100.0` and `700.0`) — the
third chapter's offset accumulates to `0.1 + 0.7 =
0.7999999999999999`, so `int(offset * 1000) = 799` while
`merge_audiobook`'s cumulative `start_ms = 800`.  The first two
conjunct groups certify that `pyFloat01`/`pyFloat07` are the binary64
values of the literals: normal significand, and within half an ulp of
`1/10` resp. `7/10` with no tie. -/
theorem c1_float_rounding_counterexample :
    ((2 : Int) ^ 52 ≤ pyFloat01.m ∧ pyFloat01.m < 2 ^ 53
      ∧ (1 : ℚ) / 10 - 1 / 2 ^ 57 < pyFloat01.val
      ∧ pyFloat01.val < (1 : ℚ) / 10 + 1 / 2 ^ 57)
    ∧ ((2 : Int) ^ 52 ≤ pyFloat07.m ∧ pyFloat07.m < 2 ^ 53
      ∧ (7 : ℚ) / 10 - 1 / 2 ^ 54 < pyFloat07.val
      ∧ pyFloat07.val < (7 : ℚ) / 10 + 1 / 2 ^ 54)
    ∧ (f64mul pyFloat01 fLit1000).val = ((100 : Nat) : ℚ)
    ∧ (f64mul pyFloat07 fLit1000).val = ((700 : Nat) : ℚ)
    ∧ offsetMsF ((calculate_offsets_f [pyFloat01, pyFloat07, pyFloat01]).getD 2 ⟨0, 0⟩)
        = 799
    ∧ ((concatChapters
          (fun p => if p = "a.mp3" then some 100
                    else if p = "b.mp3" then some 700
                    else if p = "c.mp3" then some 100 else none)
          [⟨"a.mp3", "A", "1"⟩, ⟨"b.mp3", "B", "2"⟩, ⟨"c.mp3", "C", "3"⟩]
          0).1)[2]?.map (·.start_ms) = some 800
    ∧ (799 : Int) ≠ 800 := by
  have h01 : f64mul pyFloat01 fLit1000 = ⟨7036874417766400, -46⟩ := by decide
  have h07 : f64mul pyFloat07 fLit1000 = ⟨6157265115545600, -43⟩ := by decide
  refine ⟨⟨by decide, by decide, ?_, ?_⟩, ⟨by decide, by decide, ?_, ?_⟩, ?_, ?_,
    by decide, by decide, by decide⟩
  · unfold Dyadic.val pyFloat01
    norm_num [show ((56 : Int)).toNat = 56 from rfl]
  · unfold Dyadic.val pyFloat01
    norm_num [show ((56 : Int)).toNat = 56 from rfl]
  · unfold Dyadic.val pyFloat07
    norm_num [show ((53 : Int)).toNat = 53 from rfl]
  · unfold Dyadic.val pyFloat07
    norm_num [show ((53 : Int)).toNat = 53 from rfl]
  · rw [h01]
    unfold Dyadic.val
    norm_num [show ((46 : Int)).toNat = 46 from rfl]
  · rw [h07]
    unfold Dyadic.val
    norm_num [show ((43 : Int)).toNat = 43 from rfl]

/-- Claim C1, amended: under **exact** (infinitely precise) arithmetic
on the per-chapter durations, when the composer's durations (seconds)
agree with the merger's durations (milliseconds) —
`duration_s[i] * 1000 = duration_ms[i]` — the offset of chapter `k`
computed by `calculate_offsets` equals the sum of the durations of
chapters `0..k-1`, and its millisecond conversion `int(offset * 1000)`
(as applied in `compose_master_subtitle`) equals the `start_ms` of
chapter `k`'s boundary computed by `merge_audiobook`'s cumulative
position.  Under the program's actual binary64 arithmetic the
conversion can fall 1 ms short of `start_ms` (see the
counterexample). -/
theorem c1_offsets_match_boundaries (dursS : List ℚ) (dursMs : List Nat)
    (env : MergeEnv) (files : List AudioFileEntry)
    (hlen : dursS.length = dursMs.length)
    (hpt : ∀ i, i < dursMs.length →
      (dursS.getD i 0) * 1000 = ((dursMs.getD i 0 : Nat) : ℚ))
    (hfiles : files.map (fun f => env.fs f.path) = dursMs.map some)
    (k : Nat) (hk : k < dursMs.length) :
    (calculate_offsets dursS).getD k 0 = (dursS.take k).sum
    ∧ ∃ b, ((concatChapters env.fs files 0).1)[k]? = some b
        ∧ pyInt (((calculate_offsets dursS).getD k 0) * 1000) = (b.start_ms : Int)
        ∧ b.start_ms = (dursMs.take k).sum := by
  have h1 : (calculate_offsets dursS).getD k 0 = (dursS.take k).sum := by
    unfold calculate_offsets
    rw [calcOffsetsGo_getD dursS 0 k (by omega)]
    ring
  refine ⟨h1, ?_⟩
  obtain ⟨b, hb, hs⟩ := concatChapters_start_at env.fs files dursMs 0 hfiles k hk
  refine ⟨b, hb, ?_, by omega⟩
  rw [h1, take_sum_mul_1000 dursS dursMs hlen hpt k, pyInt_natCast]
  omega

/-- Claim C1, witness: three chapters of 5 s, 6.5 s and 4 s; the third
chapter's subtitle offset converts to 11500 ms, the third boundary's
start. -/
theorem c1_offsets_match_boundaries_witness :
    (calculate_offsets [5, 13 / 2, 4]).getD 2 0 = (([5, 13 / 2, 4] : List ℚ).take 2).sum
    ∧ pyInt (((calculate_offsets [5, 13 / 2, 4]).getD 2 0) * 1000) = ((11500 : Nat) : Int) := by
  have h := c1_offsets_match_boundaries [5, 13 / 2, 4] [5000, 6500, 4000]
    ⟨fun p => if p = "a.mp3" then some 5000
              else if p = "b.mp3" then some 6500
              else if p = "c.mp3" then some 4000 else none, true⟩
    [⟨"a.mp3", "A", "1"⟩, ⟨"b.mp3", "B", "2"⟩, ⟨"c.mp3", "C", "3"⟩]
    (by decide)
    (by
      intro i hi
      simp only [List.length_cons, List.length_nil] at hi
      interval_cases i <;> norm_num)
    (by decide) 2 (by decide)
  obtain ⟨hoff, b, hb, hpy, hst⟩ := h
  refine ⟨hoff, ?_⟩
  rw [hpy, hst]
  decide

/-! ### Claim C5 -/

theorem mem_pyStrip {c : Char} {l : List Char} (hc : c ∈ pyStrip l) : c ∈ l := by
  unfold pyStrip at hc
  rw [List.mem_reverse] at hc
  have h1 := (List.dropWhile_sublist (l := (l.dropWhile pyIsSpace).reverse)
    (p := pyIsSpace)).subset hc
  rw [List.mem_reverse] at h1
  exact (List.dropWhile_sublist (l := l) (p := pyIsSpace)).subset h1

/-- Claim C5, counterexample: the chapters `(id="a_b", title="c",
part="1")` and `(id="a", title="b_c", part="1")` are distinct, yet both
derive the output filename `a_b_c_Part1` — the derivation is not
injective on distinct chapters. -/
theorem c5_collision_counterexample :
    deriveFilename "a_b" "c" "1" = deriveFilename "a" "b_c" "1"
    ∧ ¬(("a_b" : String) = "a" ∧ ("c" : String) = "b_c" ∧ ("1" : String) = "1") := by
  decide

/-- Claim C5, amended: the filename derivation is a deterministic
function of `(id, title, part)` restricted to the safe character set —
every character of the derived name is alphanumeric, space, hyphen or
underscore — but it does **not** guarantee absence of collisions
between distinct chapters (see the counterexample). -/
theorem c5_filename_safe_charset (id title part : String) :
    ∀ c ∈ deriveFilename id title part, pySafeChar c = true := by
  intro c hc
  unfold deriveFilename at hc
  have h1 := mem_pyStrip hc
  exact (List.mem_filter.mp h1).2

/-- Claim C5, witness for the safe-character-set property. -/
theorem c5_filename_safe_charset_witness :
    'a' ∈ deriveFilename "a!" "b" "1" ∧ pySafeChar 'a' = true :=
  ⟨by decide, c5_filename_safe_charset "a!" "b" "1" 'a' (by decide)⟩

/-! ### Claim C3 -/

/-- Claim C3, counterexample: one chapter whose subtitle file is
missing — zero chapters contribute a valid block and the master content
is empty — yet `compose_master_subtitle` reports success (`True`),
contradicting the claim that it reports failure in that run. -/
theorem c3_zero_blocks_success_counterexample :
    compose_master_subtitle (fun _ => none) [⟨"ch1.srt", "c1", 5⟩] = (true, []) := by
  decide

/-- Claim C3, amended: `compose_master_subtitle` reports success
whenever its file operations succeed, regardless of how many valid
blocks were retained — it returns `False` only when an exception (an
I/O failure, outside this model) occurs, never because zero chapters
contributed a valid block. -/
theorem c3_compose_always_succeeds (fs : String → Option (List Char))
    (chapters : List SubChapter) :
    (compose_master_subtitle fs chapters).1 = true := rfl

end VietTTS
